import Mathlib

set_option maxRecDepth 8000

/-!
Verification of the cssinjs repository (src/lib/utils.ts, src/lib/parser.ts,
src/lib/manager.ts, src/lib/css.ts) against its natural-language
specification.

The TypeScript code is shallowly embedded:
JavaScript values reaching the style pipeline are modelled by `JSVal`;
finite JS numbers are carried by their canonical decimal string
representation (the result of JS number-to-string conversion), since the
code only ever classifies them as numbers and converts them to text.
Impure inputs (Math.random, Date.now, the DOM sink) are supplied as
explicit oracle inputs threaded through a `ManagerState`.
-/

/-- A JavaScript value as it can appear in a style description:
a string, a finite number (carried by its canonical decimal text),
a boolean, a nested object (insertion-ordered field list), null,
or undefined. NaN and infinities never appear in the claims and are
not representable; every `num` is a finite number. -/
inductive JSVal where
  | str (s : String)
  | num (repr : String)
  | bool (b : Bool)
  | obj (fields : List (String × JSVal))
  | null
  | undef

/-- Association-list lookup used to model Map.get / property access:
first entry with the given key. -/
def findVal (k : String) : List (String × α) → Option α
  | [] => none
  | (k₂, v) :: rest => if k₂ = k then some v else findVal k rest

/-- Association-list update used to model mutation of an existing Map
entry: the entry keeps its position (JS Map semantics). -/
def updateVal (k : String) (v : α) : List (String × α) → List (String × α)
  | [] => []
  | (k₂, v₂) :: rest => if k₂ = k then (k₂, v) :: rest else (k₂, v₂) :: updateVal k v rest

/-- The whitespace class of JS \s and String.prototype.trim, restricted
to the characters that can occur in this library (space, tab, LF, VT,
FF, CR, NBSP). -/
def jsWs (c : Char) : Bool :=
  c = ' ' || c = '\t' || c = '\n' || c = '\x0b' || c = '\x0c' || c = '\r' || c = '\xa0'

/-- JS falsiness of a string coerced to Bool after trim:
`!s.trim()` is true exactly when every character is whitespace. -/
def jsBlank (s : String) : Bool := s.data.all jsWs

/-- Characters removed by String.prototype.trim at both ends. -/
def trimChars (l : List Char) : List Char :=
  ((l.dropWhile jsWs).reverse.dropWhile jsWs).reverse

/-- utils.ts trim as used on strings. -/
def jsTrimStr (s : String) : String := String.mk (trimChars s.data)

/-- JS `a || b` on strings: the empty string is falsy. -/
def jsOrStr (a b : String) : String := if a = "" then b else a

/-- utils.ts generateClassName (line 25-34): prefix + "-" + random
suffix + time suffix. Math.random().toString(36).substr(2,8) and the
last four base-36 digits of Date.now() are nondeterministic inputs and
are passed in as oracle arguments. -/
def generateClassName (pfx : String) (randomStr : String) (timeStr : String) : String :=
  pfx ++ "-" ++ randomStr ++ timeStr

/-- utils.ts camelCase (line 88-92), the global regex replace of a
hyphen followed by a lowercase letter by the uppercased letter. -/
def camelCaseAux : List Char → List Char
  | [] => []
  | '-' :: c :: rest =>
      if c.isLower then c.toUpper :: camelCaseAux rest
      else '-' :: camelCaseAux (c :: rest)
  | c :: rest => c :: camelCaseAux rest

/-- utils.ts camelCase on strings. -/
def camelCase (s : String) : String := String.mk (camelCaseAux s.data)

/-- The character class [a-z0-9] of the kebabCase regex. -/
def jsLowerDigit (c : Char) : Bool := c.isLower || c.isDigit

/-- utils.ts kebabCase (line 67-73) before lowercasing: the regex
/([a-z0-9]|(?=[A-Z]))([A-Z])/g replaced by "$1-$2". Either a
lowercase/digit character directly followed by an uppercase one gets a
hyphen inserted between them, or a bare uppercase character (empty
lookahead alternative) gets a hyphen inserted before it. -/
def kebabCaseAux : List Char → List Char
  | [] => []
  | [c] => if c.isUpper then '-' :: [c] else [c]
  | c₁ :: c₂ :: rest =>
      if jsLowerDigit c₁ && c₂.isUpper then c₁ :: '-' :: c₂ :: kebabCaseAux rest
      else if c₁.isUpper then '-' :: c₁ :: kebabCaseAux (c₂ :: rest)
      else c₁ :: kebabCaseAux (c₂ :: rest)

/-- utils.ts kebabCase: insert hyphens, then toLowerCase. -/
def kebabCase (s : String) : String :=
  String.mk ((kebabCaseAux s.data).map Char.toLower)

/-- utils.ts PIXEL_PROPERTIES (lines 132-158), in source order. -/
def PIXEL_PROPERTIES : List String :=
  ["width", "height", "minWidth", "maxWidth", "minHeight", "maxHeight",
   "margin", "marginTop", "marginRight", "marginBottom", "marginLeft",
   "padding", "paddingTop", "paddingRight", "paddingBottom", "paddingLeft",
   "top", "right", "bottom", "left",
   "borderWidth", "borderTopWidth", "borderRightWidth", "borderBottomWidth", "borderLeftWidth",
   "borderRadius", "borderTopLeftRadius", "borderTopRightRadius", "borderBottomRightRadius", "borderBottomLeftRadius",
   "fontSize", "lineHeight", "letterSpacing", "wordSpacing",
   "textIndent", "outlineWidth", "outlineOffset",
   "gridGap", "gridColumnGap", "gridRowGap", "columnGap", "rowGap",
   "strokeWidth", "tabSize"]

/-- utils.ts UNITLESS_PROPERTIES (lines 165-180), in source order. -/
def UNITLESS_PROPERTIES : List String :=
  ["opacity", "zIndex", "fontWeight", "lineHeight", "zoom", "order",
   "flex", "flexGrow", "flexShrink", "flexOrder",
   "columnCount", "columns", "orphans", "widows",
   "animationIterationCount", "fillOpacity", "strokeOpacity",
   "stopOpacity", "strokeDasharray", "strokeDashoffset"]

/-- JS String(value) for the values that can reach the non-number
branch of addUnit. -/
def jsToString : JSVal → String
  | .str s => s
  | .num r => r
  | .bool b => cond b "true" "false"
  | .obj _ => "[object Object]"
  | .null => "null"
  | .undef => "undefined"

/-- JS String.prototype.includes for a single character, reducible in
the kernel. -/
def jsContainsChar (s : String) (c : Char) : Bool := s.data.contains c

/-- JS String.prototype.startsWith, reducible in the kernel. -/
def strStartsWith (s pre : String) : Bool := pre.data.isPrefixOf s.data

/-- The camel normalization of a property name used by addUnit
(utils.ts line 209): only names containing a hyphen are converted. -/
def camelKey (property : String) : String :=
  if jsContainsChar property '-' then camelCase property else property

/-- utils.ts addUnit (lines 197-228): strings pass through; non-numbers
are stringified; numeric values are left unitless for
UNITLESS_PROPERTIES, get "ms" when the camel name starts with
motionDuration, and otherwise get "px" (both for PIXEL_PROPERTIES and
by default). -/
def addUnit (property : String) (value : JSVal) : String :=
  match value with
  | .str s => s
  | .num r =>
      let camelProperty := camelKey property
      if UNITLESS_PROPERTIES.contains camelProperty then r
      else if strStartsWith camelProperty "motionDuration" then r ++ "ms"
      else if PIXEL_PROPERTIES.contains camelProperty then r ++ "px"
      else r ++ "px"
  | v => jsToString v

/-- Code points escaped by utils.ts escapeSelector (line 244):
the regex class of CSS special characters. -/
def escapeCharCodes : List Nat :=
  [33, 34, 35, 36, 37, 38, 39, 40, 41, 42, 43, 44, 46, 47, 58, 59, 60,
   61, 62, 63, 64, 91, 92, 93, 94, 96, 123, 124, 125, 126]

/-- utils.ts escapeSelector: prepend a backslash to each special
character. -/
def escapeSelector (s : String) : String :=
  String.mk (s.data.flatMap (fun c =>
    if escapeCharCodes.contains c.toNat then '\\' :: [c] else [c]))

/-- Collapse runs of whitespace into a single space, as the regex
replace of /\s+/g by a single space (utils.ts line 264); the Bool flag
records whether the previous character was part of a run. -/
def collapseWsAux : Bool → List Char → List Char
  | _, [] => []
  | prevWs, c :: rest =>
      if jsWs c then
        if prevWs then collapseWsAux true rest
        else ' ' :: collapseWsAux true rest
      else c :: collapseWsAux false rest

/-- The alternatives of the color-function regex of normalizeValue
(utils.ts line 266), in alternation order. -/
def colorFnNamesList : List (List Char) :=
  ["rgb".data, "rgba".data, "hsl".data, "hsla".data, "hwb".data,
   "lab".data, "lch".data, "oklab".data, "oklch".data]

/-- Whether the input starts (case-insensitively) with the given name
immediately followed by an opening parenthesis. -/
def matchesNameParen : List Char → List Char → Bool
  | [], c :: _ => c = '('
  | [], [] => false
  | _ :: _, [] => false
  | n :: ns, c :: cs => if c.toLower = n then matchesNameParen ns cs else false

/-- Scan for occurrences of a color-function name followed by "(" and
lowercase them, as the case-insensitive regex replace of
/(rgb|rgba|hsl|hsla|hwb|lab|lch|oklab|oklch)\(/gi by the lowercased
match. The fuel equals the length of the input, which bounds the number
of scanning steps since every step consumes at least one character. -/
def lowerColorAux : Nat → List Char → List Char
  | 0, l => l
  | _ + 1, [] => []
  | fuel + 1, c :: rest =>
      match colorFnNamesList.find? (fun n => matchesNameParen n (c :: rest)) with
      | some n => (n.map Char.toLower) ++ '(' :: lowerColorAux fuel ((c :: rest).drop (n.length + 1))
      | none => c :: lowerColorAux fuel rest

/-- utils.ts normalizeValue (lines 259-267): trim, collapse internal
whitespace, lowercase color-function names. -/
def normalizeValue (s : String) : String :=
  let t := collapseWsAux false (trimChars s.data)
  String.mk (lowerColorAux t.length t)

/-- One iteration of the utils.ts hashString loop (lines 304-308),
carried on the unsigned 32-bit pattern u of the signed hash:
hash = ((hash << 5) - hash) + charCode followed by the 32-bit
truncation `hash & hash` maps the pattern u to
(u * 32 - u + charCode) mod 2^32 = (u * 31 + charCode) mod 2^32,
since sign adjustments are multiples of 2^32. -/
def hashStep (u : Nat) (code : Nat) : Nat :=
  (u * 31 + code) % 4294967296

/-- Math.abs of the signed 32-bit value whose unsigned pattern is u. -/
def hashAbs (u : Nat) : Nat :=
  if u < 2147483648 then u else 4294967296 - u

/-- Base-36 digit characters, 0-9 then a-z, as Number.toString(36). -/
def base36Digit (n : Nat) : Char :=
  if n < 10 then Char.ofNat (48 + n) else Char.ofNat (87 + n)

/-- Base-36 digit expansion; the fuel (64) far exceeds the number of
base-36 digits of any 32-bit value, so it is never exhausted. -/
def natToBase36Aux : Nat → Nat → List Char
  | 0, _ => []
  | fuel + 1, n =>
      if n = 0 then [] else natToBase36Aux fuel (n / 36) ++ [base36Digit (n % 36)]

/-- Math.abs(hash).toString(36). -/
def natToBase36 (n : Nat) : String :=
  if n = 0 then "0" else String.mk (natToBase36Aux 64 n)

/-- utils.ts hashString (lines 295-312): the 32-bit rolling hash of the
UTF-16 code units (all inputs here are in the BMP, so code points
coincide), rendered as base-36 text of its absolute value; the empty
string hashes to "0". -/
def hashString (s : String) : String :=
  if s.length = 0 then "0"
  else natToBase36 (hashAbs (s.data.foldl (fun h c => hashStep h c.toNat) 0))

/-- Lexicographic comparison of code-unit sequences, the default
comparator of Array.prototype.sort on strings. -/
def lexLt : List Char → List Char → Bool
  | [], [] => false
  | [], _ :: _ => true
  | _ :: _, [] => false
  | a :: as, b :: bs =>
      if a.toNat < b.toNat then true
      else if b.toNat < a.toNat then false
      else lexLt as bs

/-- String comparison for Object.keys(...).sort(). -/
def strLtB (a b : String) : Bool := lexLt a.data b.data

/-- Sorted insertion for the key sort. -/
def insertStr (s : String) : List String → List String
  | [] => [s]
  | t :: rest => if strLtB t s then t :: insertStr s rest else s :: t :: rest

/-- Object.keys(data).sort(): ascending code-unit order. -/
def sortStrs : List String → List String
  | [] => []
  | s :: rest => insertStr s (sortStrs rest)

/-- Lowercase hexadecimal digit. -/
def hexDigitChar (n : Nat) : Char :=
  if n < 10 then Char.ofNat (48 + n) else Char.ofNat (87 + n)

/-- JSON string escaping of one character (the QuoteJSONString table). -/
def escJsonChar (c : Char) : List Char :=
  if c = '"' then '\\' :: ['"']
  else if c = '\\' then '\\' :: ['\\']
  else if c = '\x08' then '\\' :: ['b']
  else if c = '\t' then '\\' :: ['t']
  else if c = '\n' then '\\' :: ['n']
  else if c = '\x0c' then '\\' :: ['f']
  else if c = '\r' then '\\' :: ['r']
  else if c.toNat < 32 then
    '\\' :: 'u' :: '0' :: '0' :: hexDigitChar (c.toNat / 16) :: [hexDigitChar (c.toNat % 16)]
  else [c]

/-- JSON quoting of a string. -/
def jsonQuote (s : String) : String :=
  String.mk ('"' :: (s.data.flatMap escJsonChar ++ ['"']))

/-- One level of JSON.stringify(value, propertyList): for an object,
exactly the keys of the property list, in property-list order, are
serialized (this is why keys that only occur in nested objects are
dropped when the list is the sorted set of top-level keys); undefined
values are omitted. `descend` serializes nested values with the same
property list. -/
def jsonLevel (descend : JSVal → Option String) (props : List String) : JSVal → Option String
  | .str s => some (jsonQuote s)
  | .num r => some r
  | .bool b => some (cond b "true" "false")
  | .null => some "null"
  | .undef => none
  | .obj fields =>
      some ("\x7b" ++ String.intercalate ","
        (props.filterMap (fun k =>
          match findVal k fields with
          | some v => (descend v).map (fun sv => jsonQuote k ++ ":" ++ sv)
          | none => none)) ++ "\x7d")

/-- JSON.stringify with an array replacer, with a nesting-depth bound
far above anything a style description can reach (JS itself would
overflow its stack long before). -/
def jsonDepth : Nat → List String → JSVal → Option String
  | 0, _, _ => none
  | d + 1, props, v => jsonLevel (jsonDepth d props) props v

/-- JSON.stringify(data, Object.keys(data).sort()) for an object-valued
argument, as used by createCacheKey. -/
def stringifyWithSortedKeys (fields : List (String × JSVal)) : String :=
  (jsonDepth 1000 (sortStrs (fields.map Prod.fst)) (JSVal.obj fields)).getD ""

/-- utils.ts createCacheKey (lines 280-285): hash of the sorted-key
JSON of the data concatenated with the sorted-key JSON of the options
(empty when the options argument is absent). -/
def createCacheKey (data : List (String × JSVal)) (options : Option (List (String × JSVal))) : String :=
  let dataStr := stringifyWithSortedKeys data
  let optionsStr := match options with
    | some o => stringifyWithSortedKeys o
    | none => ""
  hashString (dataStr ++ optionsStr)

/-- Object.entries as invoked by the parser recursion: an object yields
its field list; a string yields its indexed characters (each value a
one-character string); numbers, booleans and undefined yield nothing.
A null value never reaches these call sites. -/
def jsEntries : JSVal → List (String × JSVal)
  | .obj fields => fields
  | .str s => s.data.enum.map (fun p => (Nat.repr p.1, JSVal.str (String.mk [p.2])))
  | _ => []

/-- The result record of parser.ts parseStyleObject: the assembled rule
text, the number of declarations emitted (including nested ones), and
whether any nested rule was emitted. -/
structure PSO where
  cssText : String
  propertyCount : Nat
  hasNestedRules : Bool
deriving DecidableEq

/-- The accumulator of one parseStyleObject invocation before assembly:
declaration lines, nested rule blocks (both in encounter order), the
property count and the nested-rules flag. -/
structure LevelRes where
  decls : List String
  nested : List String
  count : Nat
  hasNested : Bool

/-- parser.ts parseStyleObject line 189: the base selector is the
escaped class selector when a (truthy) class name is given, otherwise
the parent selector. -/
def baseSel (className : Option String) (parent : String) : String :=
  match className with
  | some c => if c = "" then parent else "." ++ escapeSelector c
  | none => parent

/-- property.replace(amp, baseSelector): JS String.replace with a
string pattern replaces only the first occurrence. -/
def replaceFirstAmp (property : String) (base : String) : String :=
  String.mk (replaceFirstAmpAux property.data base.data)
where
  replaceFirstAmpAux : List Char → List Char → List Char
    | [], _ => []
    | c :: rest, b => if c = '&' then b ++ rest else c :: replaceFirstAmpAux rest b

/-- parser.ts parseStyleObject lines 259-271: the element's own
declaration block (when non-empty) followed by the nested rule blocks,
joined with newlines. -/
def assembleCss (base : String) (decls : List String) (nested : List String) : String :=
  let main := if decls.isEmpty then ""
    else base ++ " \x7b\n" ++ String.intercalate "\n" decls ++ "\n\x7d"
  if nested.isEmpty then main
  else (if main = "" then "" else main ++ "\n") ++ String.intercalate "\n" nested

/-- The loop body of parser.ts parseStyleObject (lines 195-257) over
Object.entries, in insertion order. `descend` performs the recursive
parseStyleObject call for nested values. For each entry:
undefined and null values are skipped; a key starting with an ampersand
substitutes the base selector for the ampersand and recurses with that
selector as the new parent; a key starting with an at sign recurses
with the same class name and parent and wraps the result; any other
object value recurses with the descendant selector; anything else is a
plain declaration (kebab-cased name, unit inference, normalization). -/
def psoLevel (descend : List (String × JSVal) → Option String → String → PSO) :
    List (String × JSVal) → Option String → String → LevelRes
  | [], _, _ => ⟨[], [], 0, false⟩
  | (property, value) :: rest, className, parent =>
    let acc := psoLevel descend rest className parent
    let base := baseSel className parent
    match value with
    | .undef => acc
    | .null => acc
    | _ =>
      if strStartsWith property "&" then
        let pseudoSelector := replaceFirstAmp property base
        let sub := descend (jsEntries value) none pseudoSelector
        if sub.cssText = "" then acc
        else ⟨acc.decls, sub.cssText :: acc.nested, sub.propertyCount + acc.count, true⟩
      else if strStartsWith property "@" then
        let sub := descend (jsEntries value) className parent
        if sub.cssText = "" then acc
        else ⟨acc.decls,
              (property ++ " \x7b\n" ++ sub.cssText ++ "\n\x7d") :: acc.nested,
              sub.propertyCount + acc.count, true⟩
      else
        match value with
        | .obj fs =>
          let nestedSelector := base ++ " " ++ property
          let sub := descend fs none nestedSelector
          if sub.cssText = "" then acc
          else ⟨acc.decls, sub.cssText :: acc.nested, sub.propertyCount + acc.count, true⟩
        | _ =>
          ⟨("  " ++ kebabCase property ++ ": " ++
              normalizeValue (addUnit property value) ++ ";") :: acc.decls,
           acc.nested, acc.count + 1, acc.hasNested⟩

/-- parseStyleObject with an explicit recursion-depth bound: each
nesting level consumes one unit. The bound used below (1000) is far
beyond any reachable nesting depth (the JS engine would overflow its
call stack first), so it is never exhausted. -/
def psoDepth : Nat → List (String × JSVal) → Option String → String → PSO
  | 0, _, _, _ => ⟨"", 0, false⟩
  | d + 1, fields, className, parent =>
    let r := psoLevel (psoDepth d) fields className parent
    ⟨assembleCss (baseSel className parent) r.decls r.nested, r.count, r.hasNested⟩

/-- parser.ts parseStyleObject (lines 184-274). -/
def parseStyleObject (styles : List (String × JSVal)) (className : Option String)
    (parent : String) : PSO :=
  psoDepth 1000 styles className parent

/-- The result record of parser.ts parseStyles. -/
structure ParseResult where
  cssText : String
  className : String
  propertyCount : Nat
  hasNestedRules : Bool
deriving DecidableEq

/-- parser.ts parseStyles (lines 150-172): one main rule from
parseStyleObject, pushed only when non-empty; counts and flags are
added only in that case; the final class name defaults to the empty
string. -/
def parseStyles (styles : List (String × JSVal)) (className : Option String) : ParseResult :=
  let mainRule := parseStyleObject styles className ""
  if mainRule.cssText = "" then ⟨"", className.getD "", 0, false⟩
  else ⟨mainRule.cssText, className.getD "", mainRule.propertyCount, mainRule.hasNestedRules⟩

/-- One declaration line inside a keyframe stop (parser.ts lines
306-310), indented four spaces. -/
def kfDecl (property : String) (value : JSVal) : String :=
  "    " ++ kebabCase property ++ ": " ++ normalizeValue (addUnit property value) ++ ";"

/-- The declaration lines of one keyframe stop (parser.ts lines
304-312): entries whose value is undefined, null or an object are
skipped silently. -/
def stopDeclsOf (styles : List (String × JSVal)) : List String :=
  styles.filterMap (fun pv =>
    match pv.2 with
    | .obj _ => none
    | .undef => none
    | .null => none
    | .str s => some (kfDecl pv.1 (JSVal.str s))
    | .num r => some (kfDecl pv.1 (JSVal.num r))
    | .bool b => some (kfDecl pv.1 (JSVal.bool b)))

/-- The keyframeRules array of parser.ts parseKeyframes (lines
298-317): one block per stop with at least one declaration, in
Object.entries insertion order. -/
def parseKeyframesRules (kfs : List (String × List (String × JSVal))) : List String :=
  kfs.filterMap (fun ks =>
    let ds := stopDeclsOf ks.2
    if ds.isEmpty then none
    else some ("  " ++ ks.1 ++ " \x7b\n" ++ String.intercalate "\n" ds ++ "\n  \x7d"))

/-- parser.ts parseKeyframes (lines 298-320). -/
def parseKeyframes (kfs : List (String × List (String × JSVal))) : String :=
  String.intercalate "\n" (parseKeyframesRules kfs)

/-- parser.ts generateKeyframesRule (lines 331-334). -/
def generateKeyframesRule (animationName : String)
    (kfs : List (String × List (String × JSVal))) : String :=
  "@keyframes " ++ animationName ++ " \x7b\n" ++ parseKeyframes kfs ++ "\n\x7d"

/-- The NUL placeholder for the initially empty prevChar / stringChar
of splitCSSRules (distinct from every character that occurs in rule
text). -/
def nullChar : Char := Char.ofNat 0

/-- The scanning loop of parser.ts splitCSSRules (lines 440-470):
arguments are the remaining input, the current rule in reverse, the
brace depth, the in-string flag with its quote character, and the
previous character. A rule is pushed each time the brace depth returns
to zero; trailing non-blank text is pushed at the end. -/
def splitCSSRulesAux : List Char → List Char → Int → Bool → Char → Char → List String
  | [], current, _, _, _, _ =>
    let r := jsTrimStr (String.mk current.reverse)
    if r = "" then [] else [r]
  | c :: rest, current, braceCount, inString, stringChar, prevChar =>
    let q : Bool × Char :=
      if (c = '"' || c = '\x27') && prevChar ≠ '\\' then
        if !inString then (true, c)
        else if c = stringChar then (false, nullChar)
        else (inString, stringChar)
      else (inString, stringChar)
    let current := c :: current
    if !q.1 && c = '\x7b' then
      splitCSSRulesAux rest current (braceCount + 1) q.1 q.2 c
    else if !q.1 && c = '\x7d' then
      if braceCount - 1 = 0 then
        jsTrimStr (String.mk current.reverse) :: splitCSSRulesAux rest [] 0 q.1 q.2 c
      else splitCSSRulesAux rest current (braceCount - 1) q.1 q.2 c
    else splitCSSRulesAux rest current braceCount q.1 q.2 c

/-- parser.ts splitCSSRules (lines 433-478). -/
def splitCSSRules (cssText : String) : List String :=
  splitCSSRulesAux cssText.data [] 0 false nullChar nullChar

/-- types.ts StyleInsertionMode (lines 231-235). -/
inductive StyleInsertionMode where
  | SYNC
  | ASYNC
  | LAZY
deriving DecidableEq

/-- The configuration record held by the manager (manager.ts lines
74-81); field classNamePfx embeds the source field classNamePrefix
(renamed only in this development). -/
structure CSSInJSConfig where
  classNamePfx : String
  insertionMode : StyleInsertionMode
  enableCache : Bool
  developmentMode : Bool
  minifyCSS : Bool
  maxCacheSize : Nat
deriving DecidableEq

/-- The default configuration of manager.ts lines 74-81. -/
def defaultConfig : CSSInJSConfig :=
  ⟨"css", StyleInsertionMode.SYNC, true, false, false, 10000⟩

/-- A partial configuration record, as TypeScript
Partial of CSSInJSConfig: absent fields are undefined. -/
structure ConfigUpdate where
  classNamePfx : Option String := none
  insertionMode : Option StyleInsertionMode := none
  enableCache : Option Bool := none
  developmentMode : Option Bool := none
  minifyCSS : Option Bool := none
  maxCacheSize : Option Nat := none
deriving DecidableEq

/-- The update with every field absent. -/
def emptyUpdate : ConfigUpdate := ⟨none, none, none, none, none, none⟩

/-- The object-spread merge of manager.ts configure (line 130):
fields present in the update replace, absent fields keep their
previously active value. -/
def mergeConfig (c : CSSInJSConfig) (p : ConfigUpdate) : CSSInJSConfig :=
  ⟨p.classNamePfx.getD c.classNamePfx,
   p.insertionMode.getD c.insertionMode,
   p.enableCache.getD c.enableCache,
   p.developmentMode.getD c.developmentMode,
   p.minifyCSS.getD c.minifyCSS,
   p.maxCacheSize.getD c.maxCacheSize⟩

/-- manager.ts StyleMetadata fields that the manager fills in
(types.ts lines 272-289; the unused tags field is omitted). -/
structure StyleMetadata where
  timestamp : Nat
  source : Option String
  isDynamic : Bool
  cssSize : Nat
deriving DecidableEq

/-- manager.ts StyleCacheItem (lines 32-38). -/
structure StyleCacheItem where
  className : String
  cssText : String
  metadata : StyleMetadata
  lastUsed : Nat
  useCount : Nat
deriving DecidableEq

/-- manager.ts AnimationCacheItem (lines 43-49). -/
structure AnimationCacheItem where
  animationName : String
  cssText : String
  metadata : StyleMetadata
  lastUsed : Nat
  useCount : Nat
deriving DecidableEq

/-- manager.ts stats (lines 84-90); the wall-clock injectionTime and
lastCleanup fields carry no information in this embedding and are
omitted. -/
structure ManagerStats where
  totalStyles : Nat
  cacheHits : Nat
  cacheMisses : Nat
deriving DecidableEq

/-- The outcome of one parser.injectCSS call as seen by the manager:
a returned Bool, or a thrown exception (caught by the manager). -/
inductive SinkResult where
  | ok (success : Bool)
  | threw
deriving DecidableEq

/-- The mutable state of the StyleManager singleton. Map iteration and
insertion order is modelled by association lists; sinkLog records the
synchronous parser.injectCSS calls in order; deferred records
injections scheduled for a later event-loop turn (setTimeout or
requestAnimationFrame); randSeq with nextRand is the oracle for the
random class-name suffixes; now is the Date.now oracle. -/
structure ManagerState where
  styleCache : List (String × StyleCacheItem)
  animationCache : List (String × AnimationCacheItem)
  injectedRules : List String
  config : CSSInJSConfig
  stats : ManagerStats
  sinkLog : List String
  deferred : List String
  cleanupScheduled : Bool
  randSeq : Nat → String
  nextRand : Nat
  now : Nat

/-- A freshly constructed manager (manager.ts lines 65-93) with the
given configuration and oracles: empty caches, no injected rules,
zeroed statistics. -/
def freshState (cfg : CSSInJSConfig) (rs : Nat → String) (t : Nat) : ManagerState :=
  ⟨[], [], [], cfg, ⟨0, 0, 0⟩, [], [], false, rs, 0, t⟩

/-- manager.ts clearCache (lines 431-444): both caches and the
injected-rule set are emptied and the hit/miss counters reset. -/
def clearCache (st : ManagerState) : ManagerState :=
  { st with styleCache := [], animationCache := [], injectedRules := [],
            stats := { st.stats with cacheHits := 0, cacheMisses := 0 } }

/-- manager.ts configure (lines 128-138): spread-merge the update into
the current configuration, then clear the caches when caching ended up
disabled. -/
def configure (st : ManagerState) (p : ConfigUpdate) : ManagerState :=
  let st := { st with config := mergeConfig st.config p }
  if st.config.enableCache then st else clearCache st

/-- manager.ts injectCSS (lines 370-424): blank text fails; text
already injected succeeds without a new sink call; otherwise, in sync
mode the parser sink is called and its success recorded (a throw is
caught and counts as failure), while async and lazy modes schedule the
call for a later turn and report success immediately. -/
def managerInjectCSS (sink : String → SinkResult) (st : ManagerState) (cssText : String) :
    Bool × ManagerState :=
  if jsBlank cssText then (false, st)
  else if st.injectedRules.contains cssText then (true, st)
  else
    match st.config.insertionMode with
    | .SYNC =>
      match sink cssText with
      | .ok success =>
        let st := { st with sinkLog := st.sinkLog ++ [cssText] }
        if success then (true, { st with injectedRules := st.injectedRules ++ [cssText] })
        else (false, st)
      | .threw => (false, { st with sinkLog := st.sinkLog ++ [cssText] })
    | .ASYNC =>
      (true, { st with deferred := st.deferred ++ [cssText],
                       injectedRules := st.injectedRules ++ [cssText] })
    | .LAZY =>
      (true, { st with deferred := st.deferred ++ [cssText],
                       injectedRules := st.injectedRules ++ [cssText] })

/-- The css.ts CSSOptions record (types.ts lines 204-211); field
classNamePfx embeds the source field classNamePrefix. -/
structure CSSOptions where
  classNamePfx : Option String := none
  className : Option String := none
  enableCSSVariables : Option Bool := none
deriving DecidableEq

/-- The resolved options of manager.ts createStyle lines 164-170. -/
structure FinalOptions where
  classNamePfx : String
  className : Option String
  enableCSSVariables : Bool
deriving DecidableEq

/-- manager.ts createStyle lines 164-170: an explicitly given option
field wins (even an empty string), otherwise the configured value with
its falsy default. -/
def finalOptionsOf (cfg : CSSInJSConfig) (options : Option CSSOptions) : FinalOptions :=
  { classNamePfx :=
      match options with
      | some o =>
        match o.classNamePfx with
        | some p => p
        | none => jsOrStr cfg.classNamePfx "css"
      | none => jsOrStr cfg.classNamePfx "css"
    className := options.bind (fun o => o.className)
    enableCSSVariables := (options.bind (fun o => o.enableCSSVariables)).getD true }

/-- The finalOptions object as it is passed to createCacheKey, with the
original JS property names in insertion order. -/
def finalOptionsFields (fo : FinalOptions) : List (String × JSVal) :=
  [("classNamePrefix", JSVal.str fo.classNamePfx),
   ("className", match fo.className with
                 | some c => JSVal.str c
                 | none => JSVal.undef),
   ("enableCSSVariables", JSVal.bool fo.enableCSSVariables)]

/-- manager.ts private generateClassName (lines 245-260): a truthy
custom class name is used (with the prefix when that is truthy);
otherwise a random class name is generated. The Bool records whether
the random oracle was consumed. -/
def managerGenClassName (fo : FinalOptions) (randomPart : String) : String × Bool :=
  match fo.className with
  | some c =>
    if c = "" then (generateClassName fo.classNamePfx randomPart "", true)
    else if fo.classNamePfx = "" then (c, false)
    else (fo.classNamePfx ++ "-" ++ c, false)
  | none => (generateClassName fo.classNamePfx randomPart "", true)

/-- manager.ts createStyle (lines 159-239). On a hit the cached item
gets fresh usage metadata and its class name is returned. On a miss a
class name is produced, the styles are compiled, empty output returns
the class name unchanged, and otherwise the text is injected and the
entry cached only when injection succeeded and caching is enabled.
The try/catch of the source is unreachable here because every
callee of this model returns normally, exactly as the callees of the
source catch their own exceptions. -/
def createStyle (sink : String → SinkResult) (st : ManagerState)
    (styles : List (String × JSVal)) (options : Option CSSOptions) :
    String × ManagerState :=
  let fo := finalOptionsOf st.config options
  let cacheKey := if st.config.enableCache then createCacheKey styles (some (finalOptionsFields fo)) else ""
  match (if st.config.enableCache then findVal cacheKey st.styleCache else none) with
  | some cachedItem =>
    let item := { cachedItem with lastUsed := st.now, useCount := cachedItem.useCount + 1 }
    (cachedItem.className,
     { st with styleCache := updateVal cacheKey item st.styleCache,
               stats := { st.stats with cacheHits := st.stats.cacheHits + 1 } })
  | none =>
    let st := { st with stats := { st.stats with cacheMisses := st.stats.cacheMisses + 1 } }
    let g := managerGenClassName fo (st.randSeq st.nextRand)
    let st := if g.2 then { st with nextRand := st.nextRand + 1 } else st
    let parseResult := parseStyles styles (some g.1)
    if parseResult.cssText = "" then (g.1, st)
    else
      let inj := managerInjectCSS sink st parseResult.cssText
      let st := inj.2
      let st :=
        if inj.1 && st.config.enableCache then
          { st with
            styleCache := st.styleCache ++
              [(cacheKey,
                { className := g.1, cssText := parseResult.cssText,
                  metadata := { timestamp := st.now, source := some "createStyle",
                                isDynamic := false, cssSize := parseResult.cssText.length },
                  lastUsed := st.now, useCount := 1 })],
            cleanupScheduled := true }
        else st
      (g.1, { st with stats := { st.stats with totalStyles := st.stats.totalStyles + 1 } })

/-- manager.ts hasStyle (lines 566-573): false when caching is
disabled, otherwise a lookup under createCacheKey(styles) with no
options argument. -/
def hasStyle (st : ManagerState) (styles : List (String × JSVal)) : Bool :=
  if st.config.enableCache then (findVal (createCacheKey styles none) st.styleCache).isSome
  else false

/-- The per-entry sweep of manager.ts cleanupCache (lines 463-476) over
one cache: Map iteration in insertion order, where s carries the live
size of the map (it shrinks by one at each delete); an entry is deleted
when its idle time exceeds maxAge or the current size exceeds maxSize.
The returned list holds the surviving entries. -/
def cleanupKeep (now maxAge maxSize : Nat) (lastUsedOf : α → Nat) :
    List (String × α) → Nat → List (String × α)
  | [], _ => []
  | (k, it) :: rest, s =>
    if ((now : Int) - (lastUsedOf it : Int) > (maxAge : Int)) ∨ (s > maxSize) then
      cleanupKeep now maxAge maxSize lastUsedOf rest (s - 1)
    else (k, it) :: cleanupKeep now maxAge maxSize lastUsedOf rest s

/-- Proof companion of cleanupKeep: the live map size after the sweep
finishes, threaded exactly as in cleanupKeep. -/
def cleanupSizeF (now maxAge maxSize : Nat) (lastUsedOf : α → Nat) :
    List (String × α) → Nat → Nat
  | [], s => s
  | (_, it) :: rest, s =>
    if ((now : Int) - (lastUsedOf it : Int) > (maxAge : Int)) ∨ (s > maxSize) then
      cleanupSizeF now maxAge maxSize lastUsedOf rest (s - 1)
    else cleanupSizeF now maxAge maxSize lastUsedOf rest s

/-- manager.ts cleanupCache (lines 451-483): nothing happens when
caching is disabled; otherwise both caches are swept with a 30-minute
age threshold and the configured maximum size, where a configured value
of 0 is falsy and is replaced by 10000. -/
def cleanupCache (st : ManagerState) : ManagerState :=
  if st.config.enableCache then
    let maxAge := 30 * 60 * 1000
    let maxSize := if st.config.maxCacheSize = 0 then 10000 else st.config.maxCacheSize
    { st with
      styleCache := cleanupKeep st.now maxAge maxSize (fun it => it.lastUsed)
        st.styleCache st.styleCache.length,
      animationCache := cleanupKeep st.now maxAge maxSize (fun it => it.lastUsed)
        st.animationCache st.animationCache.length }
  else st

/-- css.ts StyleDefinition: a static style object or a function from
parameters to a style object. -/
inductive StyleDefinition where
  | staticDef (styles : List (String × JSVal))
  | funcDef (f : JSVal → List (String × JSVal))

/-- One invocation of the closure returned by css.ts css (lines
71-109). A dynamic definition invoked without parameters throws, the
closure catches, logs, and returns the sentinel "css-error" without
touching the manager; otherwise the (computed) style object is handed
to createStyle. The object-validity check of the source always passes
here because style definitions are objects by construction. -/
def cssCall (sd : StyleDefinition) (options : Option CSSOptions) (params : Option JSVal)
    (sink : String → SinkResult) (st : ManagerState) : String × ManagerState :=
  match sd with
  | .funcDef f =>
    match params with
    | none => ("css-error", st)
    | some p => createStyle sink st (f p) options
  | .staticDef styles => createStyle sink st styles options

/-- A constant random oracle for concrete runs. -/
def rsConst : Nat → String := fun _ => "abcd1234"

/-- An always-succeeding sink. -/
def sinkOk : String → SinkResult := fun _ => SinkResult.ok true

/-- A sink whose every call throws. -/
def sinkThrew : String → SinkResult := fun _ => SinkResult.threw

/-- Right-biased field choice on optional fields, for composing two
partial configuration updates. -/
def orO (a b : Option α) : Option α :=
  match a with
  | some v => some v
  | none => b

/-- The pointwise composition of two configuration updates: fields of
the second win. -/
def overrideUpdate (p q : ConfigUpdate) : ConfigUpdate :=
  ⟨orO q.classNamePfx p.classNamePfx,
   orO q.insertionMode p.insertionMode,
   orO q.enableCache p.enableCache,
   orO q.developmentMode p.developmentMode,
   orO q.minifyCSS p.minifyCSS,
   orO q.maxCacheSize p.maxCacheSize⟩

/-- Whether one entry of a style description is a plain declaration:
its key starts with neither an ampersand nor an at sign and its value
is a string, number or boolean. Exactly these entries emit a
declaration line at the current nesting level of parseStyleObject. -/
def isPlainDeclEntry (pv : String × JSVal) : Bool :=
  !strStartsWith pv.1 "&" && !strStartsWith pv.1 "@" &&
  (match pv.2 with
   | JSVal.str _ => true
   | JSVal.num _ => true
   | JSVal.bool _ => true
   | _ => false)

/-- Whether a style description has at least one plain declaration at
top level — a sufficient structural condition for its compiled rule
text to be non-empty. -/
def hasTopDecl (styles : List (String × JSVal)) : Bool := styles.any isPlainDeclEntry

/-- The opening-brace character emitted by every non-empty rule block.
-/
def braceChar : Char := '\x7b'

/-- The fingerprint computed by a createStyle call on the given state.
-/
def missKey (st : ManagerState) (styles : List (String × JSVal))
    (options : Option CSSOptions) : String :=
  createCacheKey styles (some (finalOptionsFields (finalOptionsOf st.config options)))

/-- The class name produced by a createStyle cache miss on the given
state. -/
def missName (st : ManagerState) (_styles : List (String × JSVal))
    (options : Option CSSOptions) : String :=
  (managerGenClassName (finalOptionsOf st.config options) (st.randSeq st.nextRand)).1

/-- The rule text compiled by a createStyle cache miss on the given
state. -/
def missText (st : ManagerState) (styles : List (String × JSVal))
    (options : Option CSSOptions) : String :=
  (parseStyles styles (some (missName st styles options))).cssText

/-- The cache entry stored by a successful createStyle cache miss on
the given state. -/
def missItem (st : ManagerState) (styles : List (String × JSVal))
    (options : Option CSSOptions) : StyleCacheItem :=
  { className := missName st styles options,
    cssText := missText st styles options,
    metadata := { timestamp := st.now, source := some "createStyle", isDynamic := false,
                  cssSize := (missText st styles options).length },
    lastUsed := st.now, useCount := 1 }

/-- The style description of claim C1. -/
def c1Styles : List (String × JSVal) := [("color", JSVal.str "red")]

/-- The style description of claim C2. -/
def c2Styles : List (String × JSVal) := [("color", JSVal.str "blue")]

/-- The manager after configuring the identifier prefix to t, claim
C2. -/
def c2St1 : ManagerState :=
  configure (freshState defaultConfig rsConst 0) { classNamePfx := some "t" }

/-- The compile call of claim C2. -/
def c2Run : String × ManagerState := createStyle sinkOk c2St1 c2Styles none

/-- The style description of claim C4. -/
def c4Styles : List (String × JSVal) :=
  [("padding", JSVal.num "8"), ("&:hover", JSVal.obj [("opacity", JSVal.num "0.9")])]

/-- A style cache entry last used at time 0, for claim C5. -/
def c5Item : StyleCacheItem := ⟨"cls", "txt", ⟨0, none, false, 3⟩, 0, 1⟩

/-- A manager whose configured maximum cache size is 0 and whose style
cache holds one fresh entry, for the claim C5 counterexample. -/
def c5CexSt : ManagerState :=
  { freshState { defaultConfig with maxCacheSize := 0 } rsConst 0 with
    styleCache := [("a", c5Item)] }

/-- A manager whose configured maximum cache size is 1 and whose style
cache holds two fresh entries, for the claim C5 witness. -/
def c5WitSt : ManagerState :=
  { freshState { defaultConfig with maxCacheSize := 1 } rsConst 0 with
    styleCache := [("a", c5Item), ("b", c5Item)] }

/-- The style description of the claim C6 witness. -/
def c6Styles : List (String × JSVal) := [("background", JSVal.str "blue")]

/-- The manager state after configure with the enableCache false
update, for claim C8. -/
def c8StA : ManagerState :=
  configure (freshState defaultConfig rsConst 0) { enableCache := some false }

/-- The manager state after a second configure setting only the class
name prefix, for claim C8. -/
def c8StB : ManagerState := configure c8StA { classNamePfx := some "x" }

/-- The first style description of claim C9. -/
def c9d1 : List (String × JSVal) := [("&:hover", JSVal.obj [("opacity", JSVal.num "1")])]

/-- The second style description of claim C9: same nested key, entirely
different nested contents. -/
def c9d2 : List (String × JSVal) := [("&:hover", JSVal.obj [("color", JSVal.str "red")])]

/-- The first compile of claim C9. -/
def c9r1 : String × ManagerState :=
  createStyle sinkOk (freshState defaultConfig rsConst 0) c9d1 none

/-- The second compile of claim C9, on the state left by the first. -/
def c9r2 : String × ManagerState := createStyle sinkOk c9r1.2 c9d2 none

theorem orO_getD (a b : Option α) (x : α) : (orO a b).getD x = a.getD (b.getD x) := by
  cases a <;> rfl

theorem strDataAppend (a b : String) : (a ++ b).data = a.data ++ b.data := by
  cases a; cases b; rfl

theorem str_ne_empty_of_data_mem {s : String} {ch : Char} (h : ch ∈ s.data) : s ≠ "" := by
  intro he
  have hnil : ("" : String).data = ([] : List Char) := rfl
  rw [he, hnil] at h
  exact absurd h (List.not_mem_nil ch)

theorem jsBlank_false_of_brace {s : String} (h : braceChar ∈ s.data) : jsBlank s = false := by
  unfold jsBlank
  cases hb : s.data.all jsWs
  · rfl
  · exact absurd (List.all_eq_true.mp hb braceChar h) (by decide)

theorem psoLevel_decls_cons (descend : List (String × JSVal) → Option String → String → PSO)
    (p : String) (v : JSVal) (rest : List (String × JSVal)) (className : Option String)
    (parent : String) :
    (psoLevel descend ((p, v) :: rest) className parent).decls =
      if isPlainDeclEntry (p, v) then
        ("  " ++ kebabCase p ++ ": " ++ normalizeValue (addUnit p v) ++ ";") ::
          (psoLevel descend rest className parent).decls
      else (psoLevel descend rest className parent).decls := by
  cases v with
  | undef => simp [psoLevel, isPlainDeclEntry]
  | null => simp [psoLevel, isPlainDeclEntry]
  | str s =>
    by_cases h1 : strStartsWith p "&"
    · simp [psoLevel, isPlainDeclEntry, h1]
      split <;> rfl
    · by_cases h2 : strStartsWith p "@"
      · simp [psoLevel, isPlainDeclEntry, h1, h2]
        split <;> rfl
      · simp [psoLevel, isPlainDeclEntry, h1, h2]
  | num r =>
    by_cases h1 : strStartsWith p "&"
    · simp [psoLevel, isPlainDeclEntry, h1]
      split <;> rfl
    · by_cases h2 : strStartsWith p "@"
      · simp [psoLevel, isPlainDeclEntry, h1, h2]
        split <;> rfl
      · simp [psoLevel, isPlainDeclEntry, h1, h2]
  | bool b =>
    by_cases h1 : strStartsWith p "&"
    · simp [psoLevel, isPlainDeclEntry, h1]
      split <;> rfl
    · by_cases h2 : strStartsWith p "@"
      · simp [psoLevel, isPlainDeclEntry, h1, h2]
        split <;> rfl
      · simp [psoLevel, isPlainDeclEntry, h1, h2]
  | obj fs =>
    by_cases h1 : strStartsWith p "&"
    · simp [psoLevel, isPlainDeclEntry, h1]
      split <;> rfl
    · by_cases h2 : strStartsWith p "@"
      · simp [psoLevel, isPlainDeclEntry, h1, h2]
        split <;> rfl
      · simp [psoLevel, isPlainDeclEntry, h1, h2]
        split <;> rfl

theorem psoLevel_decls_ne_nil (descend : List (String × JSVal) → Option String → String → PSO)
    (styles : List (String × JSVal)) (className : Option String) (parent : String)
    (h : hasTopDecl styles = true) :
    (psoLevel descend styles className parent).decls ≠ [] := by
  induction styles with
  | nil => simp [hasTopDecl] at h
  | cons pv rest ih =>
    obtain ⟨p, v⟩ := pv
    rw [hasTopDecl, List.any_cons, Bool.or_eq_true] at h
    rw [psoLevel_decls_cons]
    by_cases hd : isPlainDeclEntry (p, v)
    · simp [hd]
    · rcases h with h | h
      · exact absurd h hd
      · simp only [hd, Bool.false_eq_true, if_false]
        exact ih h

theorem brace_mem_assembleCss (base : String) (decls nested : List String)
    (h : decls ≠ []) :
    braceChar ∈ (assembleCss base decls nested).data := by
  unfold assembleCss
  have hne : decls.isEmpty = false := by
    cases decls with
    | nil => exact absurd rfl h
    | cons a l => rfl
  simp only [hne, Bool.false_eq_true, if_false]
  have hmem : braceChar ∈ (base ++ " \x7b\n" ++ String.intercalate "\n" decls ++ "\n\x7d").data := by
    rw [strDataAppend, strDataAppend, strDataAppend]
    have hb : braceChar ∈ (" \x7b\n" : String).data := by decide
    exact List.mem_append.mpr (Or.inl (List.mem_append.mpr (Or.inl (List.mem_append.mpr (Or.inr hb)))))
  split
  · exact hmem
  · rw [if_neg (str_ne_empty_of_data_mem hmem)]
    rw [strDataAppend, strDataAppend]
    exact List.mem_append.mpr (Or.inl (List.mem_append.mpr (Or.inl hmem)))

theorem parseStyleObject_brace (styles : List (String × JSVal)) (className : Option String)
    (parent : String) (h : hasTopDecl styles = true) :
    braceChar ∈ (parseStyleObject styles className parent).cssText.data := by
  unfold parseStyleObject
  rw [show (1000 : Nat) = 999 + 1 from rfl, psoDepth]
  exact brace_mem_assembleCss _ _ _ (psoLevel_decls_ne_nil _ _ _ _ h)

theorem parseStyles_brace (styles : List (String × JSVal)) (className : Option String)
    (h : hasTopDecl styles = true) :
    braceChar ∈ (parseStyles styles className).cssText.data := by
  unfold parseStyles
  have hb := parseStyleObject_brace styles className "" h
  rw [if_neg (str_ne_empty_of_data_mem hb)]
  exact hb

theorem parseStyles_cssText_ne (styles : List (String × JSVal)) (className : Option String)
    (h : hasTopDecl styles = true) :
    (parseStyles styles className).cssText ≠ "" :=
  str_ne_empty_of_data_mem (parseStyles_brace styles className h)

theorem parseStyles_not_blank (styles : List (String × JSVal)) (className : Option String)
    (h : hasTopDecl styles = true) :
    jsBlank (parseStyles styles className).cssText = false :=
  jsBlank_false_of_brace (parseStyles_brace styles className h)

theorem dash_append_ne_empty (a b : String) : a ++ "-" ++ b ≠ "" := by
  have hmem : ('-' : Char) ∈ (a ++ "-" ++ b).data := by
    rw [strDataAppend, strDataAppend]
    have hd : ('-' : Char) ∈ ("-" : String).data := by decide
    exact List.mem_append.mpr (Or.inl (List.mem_append.mpr (Or.inr hd)))
  exact str_ne_empty_of_data_mem hmem

theorem managerGenClassName_fst_ne (fo : FinalOptions) (r : String) :
    (managerGenClassName fo r).1 ≠ "" := by
  unfold managerGenClassName generateClassName
  cases hc : fo.className with
  | none =>
    intro he
    have hsame : fo.classNamePfx ++ "-" ++ r ++ "" = fo.classNamePfx ++ "-" ++ (r ++ "") := by
      simp
    exact dash_append_ne_empty fo.classNamePfx (r ++ "") (hsame ▸ he)
  | some c =>
    by_cases h1 : c = ""
    · simp only [h1, if_true]
      intro he
      have hsame : fo.classNamePfx ++ "-" ++ r ++ "" = fo.classNamePfx ++ "-" ++ (r ++ "") := by
        simp
      exact dash_append_ne_empty fo.classNamePfx (r ++ "") (hsame ▸ he)
    · simp only [h1, if_false]
      by_cases h2 : fo.classNamePfx = ""
      · simp only [h2, if_true]
        exact h1
      · simp only [h2, if_false]
        exact dash_append_ne_empty fo.classNamePfx c

theorem createStyle_hit_spec (sink : String → SinkResult) (st : ManagerState)
    (styles : List (String × JSVal)) (options : Option CSSOptions) (item : StyleCacheItem)
    (hc : st.config.enableCache = true)
    (hfind : findVal (createCacheKey styles (some (finalOptionsFields (finalOptionsOf st.config options))))
      st.styleCache = some item) :
    (createStyle sink st styles options).1 = item.className ∧
    (createStyle sink st styles options).2.sinkLog = st.sinkLog := by
  unfold createStyle
  simp [hc, hfind]

theorem createStyle_miss_spec (sink : String → SinkResult) (st : ManagerState)
    (styles : List (String × JSVal)) (options : Option CSSOptions)
    (hc : st.config.enableCache = true)
    (hmode : st.config.insertionMode = StyleInsertionMode.SYNC)
    (hsink : ∀ s, sink s = SinkResult.ok true)
    (hmiss : findVal (missKey st styles options) st.styleCache = none)
    (hdecl : hasTopDecl styles = true)
    (hinj : st.injectedRules = []) :
    (createStyle sink st styles options).1 = missName st styles options ∧
    (createStyle sink st styles options).2.config = st.config ∧
    (createStyle sink st styles options).2.styleCache =
      st.styleCache ++ [(missKey st styles options, missItem st styles options)] ∧
    (createStyle sink st styles options).2.sinkLog = st.sinkLog ++ [missText st styles options] := by
  have hne := parseStyles_cssText_ne styles
    (some (managerGenClassName (finalOptionsOf st.config options) (st.randSeq st.nextRand)).1) hdecl
  have hnb := parseStyles_not_blank styles
    (some (managerGenClassName (finalOptionsOf st.config options) (st.randSeq st.nextRand)).1) hdecl
  unfold missKey at hmiss
  unfold createStyle managerInjectCSS
  cases hg2 : (managerGenClassName (finalOptionsOf st.config options) (st.randSeq st.nextRand)).2 <;>
    simp [hc, hmiss, hmode, hinj, hg2, hsink, hne, hnb, missKey, missName, missText, missItem]

theorem managerInjectCSS_fail (sink : String → SinkResult) (st : ManagerState) (txt : String)
    (hmode : st.config.insertionMode = StyleInsertionMode.SYNC)
    (hsink : ∀ s, sink s ≠ SinkResult.ok true)
    (hinj : st.injectedRules = []) :
    (managerInjectCSS sink st txt).1 = false ∧
    (managerInjectCSS sink st txt).2.styleCache = st.styleCache := by
  unfold managerInjectCSS
  by_cases hb : jsBlank txt
  · simp [hb]
  · rcases hs : sink txt with b | _
    · cases b
      · simp [hb, hinj, hmode, hs]
      · exact absurd hs (hsink txt)
    · simp [hb, hinj, hmode, hs]

theorem createStyle_fail_spec (sink : String → SinkResult) (st : ManagerState)
    (styles : List (String × JSVal)) (options : Option CSSOptions)
    (hmode : st.config.insertionMode = StyleInsertionMode.SYNC)
    (hsink : ∀ s, sink s ≠ SinkResult.ok true)
    (hcache : st.styleCache = [])
    (hinj : st.injectedRules = []) :
    (createStyle sink st styles options).1 = missName st styles options ∧
    (createStyle sink st styles options).2.styleCache = [] := by
  have hfailA := managerInjectCSS_fail sink
    { st with stats := { st.stats with cacheMisses := st.stats.cacheMisses + 1 } }
    ((parseStyles styles
      (some (managerGenClassName (finalOptionsOf st.config options) (st.randSeq st.nextRand)).1)).cssText)
    hmode hsink hinj
  have hfailB := managerInjectCSS_fail sink
    { st with stats := { st.stats with cacheMisses := st.stats.cacheMisses + 1 },
              nextRand := st.nextRand + 1 }
    ((parseStyles styles
      (some (managerGenClassName (finalOptionsOf st.config options) (st.randSeq st.nextRand)).1)).cssText)
    hmode hsink hinj
  simp only [hcache, hinj] at hfailA hfailB
  unfold createStyle
  cases hg2 : (managerGenClassName (finalOptionsOf st.config options) (st.randSeq st.nextRand)).2 <;>
  by_cases hempty : (parseStyles styles
      (some (managerGenClassName (finalOptionsOf st.config options) (st.randSeq st.nextRand)).1)).cssText = "" <;>
  simp [hcache, hinj, hg2, hempty, findVal, missName, hfailA.1, hfailA.2, hfailB.1, hfailB.2]

theorem cleanupSizeF_le (now maxAge maxSize : Nat) (f : α → Nat) :
    ∀ (l : List (String × α)) (s : Nat),
    cleanupSizeF now maxAge maxSize f l s ≤ max maxSize (s - l.length) := by
  intro l
  induction l with
  | nil =>
    intro s
    simp only [cleanupSizeF, List.length_nil, Nat.sub_zero]
    exact le_max_right _ _
  | cons kv rest ih =>
    intro s
    obtain ⟨k, it⟩ := kv
    simp only [cleanupSizeF, List.length_cons]
    split
    · have h := ih (s - 1)
      rw [Nat.sub_sub, Nat.add_comm 1 rest.length] at h
      exact h
    · rename_i hno
      push_neg at hno
      have hs : s ≤ maxSize := hno.2
      have h := ih s
      have hmax : max maxSize (s - rest.length) = maxSize :=
        Nat.max_eq_left (le_trans (Nat.sub_le s rest.length) hs)
      rw [hmax] at h
      exact le_trans h (le_max_left _ _)

theorem cleanupKeep_len (now maxAge maxSize : Nat) (f : α → Nat) :
    ∀ (l : List (String × α)) (s : Nat), l.length ≤ s →
    cleanupSizeF now maxAge maxSize f l s + l.length =
      s + (cleanupKeep now maxAge maxSize f l s).length := by
  intro l
  induction l with
  | nil =>
    intro s _
    simp [cleanupSizeF, cleanupKeep]
  | cons kv rest ih =>
    intro s hle
    obtain ⟨k, it⟩ := kv
    rw [List.length_cons] at hle
    simp only [cleanupSizeF, cleanupKeep, List.length_cons]
    split
    · have h := ih (s - 1) (by omega)
      rw [← Nat.add_assoc, h]
      omega
    · have h := ih s (by omega)
      simp only [List.length_cons]
      omega

/-- Claim C1: with caching enabled, sync insertion, and a sink that
materializes successfully, calling createStyle twice from a fresh
manager with the same description and options (one that compiles to
non-empty rule text) returns the same identifier both times, and the
sink is invoked exactly once in total: the second call is a cache hit
that neither recompiles nor re-materializes. -/
theorem createStyle_idempotent_one_injection
    (cfg : CSSInJSConfig) (rs : Nat → String) (t : Nat)
    (styles : List (String × JSVal)) (options : Option CSSOptions)
    (sink : String → SinkResult)
    (hc : cfg.enableCache = true)
    (hmode : cfg.insertionMode = StyleInsertionMode.SYNC)
    (hsink : ∀ s, sink s = SinkResult.ok true)
    (hdecl : hasTopDecl styles = true) :
    (createStyle sink (createStyle sink (freshState cfg rs t) styles options).2 styles options).1 =
      (createStyle sink (freshState cfg rs t) styles options).1 ∧
    (createStyle sink (createStyle sink (freshState cfg rs t) styles options).2
      styles options).2.sinkLog.length = 1 := by
  have h0c : (freshState cfg rs t).config.enableCache = true := hc
  have h0m : (freshState cfg rs t).config.insertionMode = StyleInsertionMode.SYNC := hmode
  have hmiss : findVal (missKey (freshState cfg rs t) styles options)
      (freshState cfg rs t).styleCache = none := rfl
  have hinj : (freshState cfg rs t).injectedRules = [] := rfl
  obtain ⟨e1, e2, e3, e4⟩ :=
    createStyle_miss_spec sink (freshState cfg rs t) styles options h0c h0m hsink hmiss hdecl hinj
  have h1c : (createStyle sink (freshState cfg rs t) styles options).2.config.enableCache = true := by
    rw [e2]; exact h0c
  have hfind : findVal
      (createCacheKey styles (some (finalOptionsFields
        (finalOptionsOf (createStyle sink (freshState cfg rs t) styles options).2.config options))))
      (createStyle sink (freshState cfg rs t) styles options).2.styleCache =
      some (missItem (freshState cfg rs t) styles options) := by
    rw [e3, e2]
    show findVal (missKey (freshState cfg rs t) styles options)
      ((freshState cfg rs t).styleCache ++
        [(missKey (freshState cfg rs t) styles options,
          missItem (freshState cfg rs t) styles options)]) = _
    simp [findVal]
  obtain ⟨f1, f2⟩ := createStyle_hit_spec sink
    (createStyle sink (freshState cfg rs t) styles options).2 styles options
    (missItem (freshState cfg rs t) styles options) h1c hfind
  constructor
  · rw [f1, e1]; rfl
  · rw [f2, e4]; rfl

/-- Witness for claim C1 at a concrete input: default configuration,
the description color red, a successful sink. -/
theorem createStyle_idempotent_one_injection_witness :
    defaultConfig.enableCache = true ∧
    defaultConfig.insertionMode = StyleInsertionMode.SYNC ∧
    (∀ s, sinkOk s = SinkResult.ok true) ∧
    hasTopDecl c1Styles = true ∧
    ((createStyle sinkOk (createStyle sinkOk (freshState defaultConfig rsConst 0) c1Styles none).2
        c1Styles none).1 =
      (createStyle sinkOk (freshState defaultConfig rsConst 0) c1Styles none).1 ∧
     (createStyle sinkOk (createStyle sinkOk (freshState defaultConfig rsConst 0) c1Styles none).2
        c1Styles none).2.sinkLog.length = 1) :=
  ⟨rfl, rfl, fun _ => rfl, by decide,
   createStyle_idempotent_one_injection defaultConfig rsConst 0 c1Styles none sinkOk
     rfl rfl (fun _ => rfl) (by decide)⟩

/-- Claim C2, evaluated on the code: the identifier is t- followed by
the random token, and after clearCache hasStyle is false, as claimed;
but immediately after the successful compile hasStyle is already
false, although the entry is in the style cache — createStyle
fingerprints (styles, finalOptions) while hasStyle fingerprints styles
alone, so the lookup key never matches the stored key. -/
theorem hasStyle_misses_createStyle_entry :
    c2Run.1 = "t-abcd1234" ∧
    (findVal (createCacheKey c2Styles (some (finalOptionsFields (finalOptionsOf c2Run.2.config none))))
      c2Run.2.styleCache).isSome = true ∧
    hasStyle c2Run.2 c2Styles = false ∧
    hasStyle (clearCache c2Run.2) c2Styles = false := by
  decide

/-- Claim C3 counterexample: the property name motionDuration belongs
to neither the pixel table nor the unitless table, yet addUnit appends
ms, not px, to the finite numeric value 300. -/
theorem addUnit_motionDuration_cex :
    addUnit "motionDuration" (JSVal.num "300") = "300ms" ∧
    PIXEL_PROPERTIES.contains "motionDuration" = false ∧
    UNITLESS_PROPERTIES.contains "motionDuration" = false ∧
    ("300ms" : String) ≠ "300px" := by decide

/-- Claim C3 (amended): for every property name whose camel
normalization is not in the unitless table and does not start with
motionDuration, addUnit appends px to a finite numeric value — whether
or not the name is in the pixel table, since the pixel branch and the
default branch coincide. -/
theorem addUnit_defaults_to_px (property r : String)
    (h1 : UNITLESS_PROPERTIES.contains (camelKey property) = false)
    (h2 : strStartsWith (camelKey property) "motionDuration" = false) :
    addUnit property (JSVal.num r) = r ++ "px" := by
  unfold addUnit
  simp only [h1, h2, Bool.false_eq_true, if_false]
  split <;> rfl

/-- Witness for claim C3 at the property gap, which is in neither
table: a numeric 4 becomes 4px. -/
theorem addUnit_defaults_to_px_witness :
    UNITLESS_PROPERTIES.contains (camelKey "gap") = false ∧
    strStartsWith (camelKey "gap") "motionDuration" = false ∧
    addUnit "gap" (JSVal.num "4") = "4" ++ "px" :=
  ⟨by decide, by decide, addUnit_defaults_to_px "gap" "4" (by decide) (by decide)⟩

/-- Claim C4: compiling the description against root selector .x
yields exactly the two sibling top-level blocks .x and .x:hover, in
that order; splitting the output at top-level braces recovers exactly
those two flat blocks, so no textually nested rule is emitted. -/
theorem parse_flattens_to_sibling_blocks :
    (parseStyles c4Styles (some "x")).cssText =
      ".x \x7b\n  padding: 8px;\n\x7d\n.x:hover \x7b\n  opacity: 0.9;\n\x7d" ∧
    splitCSSRules (parseStyles c4Styles (some "x")).cssText =
      [".x \x7b\n  padding: 8px;\n\x7d", ".x:hover \x7b\n  opacity: 0.9;\n\x7d"] := by
  decide

/-- Claim C5 counterexample: with a configured maximum cache size of
0, the cache holds 0 + 1 = 1 distinct style, yet the eviction sweep
keeps it (the falsy configured value 0 is replaced by 10000 in
cleanupCache), so the cache does not shrink to at most 0 entries. -/
theorem cleanup_ignores_zero_max_cex :
    c5CexSt.config.maxCacheSize = 0 ∧
    c5CexSt.config.enableCache = true ∧
    c5CexSt.styleCache.length = 0 + 1 ∧
    (cleanupCache c5CexSt).styleCache.length = 1 ∧
    ¬ ((cleanupCache c5CexSt).styleCache.length ≤ 0) := by
  decide

/-- Claim C5 (amended): for every configured maximum cache size m of
at least 1, a style cache holding m + 1 entries is reduced by the
eviction sweep to at most m entries, whatever the entry ages — once
the live size exceeds the bound, every visited entry is removed until
the size is back at the bound. -/
theorem cleanup_bounds_style_cache (m : Nat) (st : ManagerState)
    (hm : 1 ≤ m)
    (hcache : st.config.enableCache = true)
    (hmax : st.config.maxCacheSize = m)
    (hlen : st.styleCache.length = m + 1) :
    (cleanupCache st).styleCache.length ≤ m := by
  unfold cleanupCache
  simp only [hcache, if_true, hmax, hlen]
  rw [if_neg (by omega : ¬ m = 0)]
  have hlink := cleanupKeep_len st.now (30 * 60 * 1000) m (fun it => it.lastUsed)
    st.styleCache (m + 1) (by rw [hlen])
  have hsz := cleanupSizeF_le st.now (30 * 60 * 1000) m (fun it => it.lastUsed)
    st.styleCache (m + 1)
  rw [hlen, Nat.sub_self] at hsz
  have hm0 : max m 0 = m := Nat.max_eq_left (Nat.zero_le m)
  rw [hm0] at hsz
  rw [hlen] at hlink
  omega

/-- Witness for claim C5 at m = 1 with two fresh entries: the sweep
leaves at most one. -/
theorem cleanup_bounds_style_cache_witness :
    1 ≤ 1 ∧
    c5WitSt.config.enableCache = true ∧
    c5WitSt.config.maxCacheSize = 1 ∧
    c5WitSt.styleCache.length = 1 + 1 ∧
    (cleanupCache c5WitSt).styleCache.length ≤ 1 :=
  ⟨le_refl 1, rfl, rfl, rfl,
   cleanup_bounds_style_cache 1 c5WitSt (le_refl 1) rfl rfl rfl⟩

/-- Claim C6: when every sink call fails (rejects or throws), a
createStyle call on a fresh manager still returns normally with a
non-empty identifier, and nothing is added to the style cache, so the
next call with the same input starts from scratch. -/
theorem createStyle_failing_sink_safe
    (cfg : CSSInJSConfig) (rs : Nat → String) (t : Nat)
    (styles : List (String × JSVal)) (options : Option CSSOptions)
    (sink : String → SinkResult)
    (hmode : cfg.insertionMode = StyleInsertionMode.SYNC)
    (hsink : ∀ s, sink s ≠ SinkResult.ok true) :
    (createStyle sink (freshState cfg rs t) styles options).1 ≠ "" ∧
    (createStyle sink (freshState cfg rs t) styles options).2.styleCache = [] := by
  obtain ⟨e1, e2⟩ :=
    createStyle_fail_spec sink (freshState cfg rs t) styles options hmode hsink rfl rfl
  refine ⟨?_, e2⟩
  rw [e1]
  exact managerGenClassName_fst_ne _ _

/-- Witness for claim C6 with an always-throwing sink and a concrete
description. -/
theorem createStyle_failing_sink_safe_witness :
    defaultConfig.insertionMode = StyleInsertionMode.SYNC ∧
    (∀ s, sinkThrew s ≠ SinkResult.ok true) ∧
    ((createStyle sinkThrew (freshState defaultConfig rsConst 0) c6Styles none).1 ≠ "" ∧
     (createStyle sinkThrew (freshState defaultConfig rsConst 0) c6Styles none).2.styleCache = []) :=
  ⟨rfl, fun _ h => SinkResult.noConfusion h,
   createStyle_failing_sink_safe defaultConfig rsConst 0 c6Styles none sinkThrew
     rfl (fun _ h => SinkResult.noConfusion h)⟩

/-- Claim C7: the keyframe compiler is order-preserving — it maps list
concatenation of stop maps to concatenation of emitted blocks, so
stops are emitted in insertion order and never reordered; a key with a
nested object value inside a stop is skipped without changing anything
else; and concretely a 50% stop listed before a 0% stop is emitted
before it. -/
theorem keyframes_insertion_order_and_skip :
    (∀ a b : List (String × List (String × JSVal)),
      parseKeyframesRules (a ++ b) = parseKeyframesRules a ++ parseKeyframesRules b) ∧
    (∀ (pre post : List (String × List (String × JSVal))) (label : String)
       (l₁ l₂ : List (String × JSVal)) (k : String) (o : List (String × JSVal)),
      parseKeyframes (pre ++ (label, l₁ ++ (k, JSVal.obj o) :: l₂) :: post) =
      parseKeyframes (pre ++ (label, l₁ ++ l₂) :: post)) ∧
    parseKeyframes [("50%", [("opacity", JSVal.num "1")]), ("0%", [("opacity", JSVal.num "0")])] =
      "  50% \x7b\n    opacity: 1;\n  \x7d\n  0% \x7b\n    opacity: 0;\n  \x7d" := by
  refine ⟨?_, ?_, by decide⟩
  · intro a b
    simp [parseKeyframesRules, List.filterMap_append]
  · intro pre post label l₁ l₂ k o
    have hs : stopDeclsOf (l₁ ++ (k, JSVal.obj o) :: l₂) = stopDeclsOf (l₁ ++ l₂) := by
      simp [stopDeclsOf, List.filterMap_append, List.filterMap_cons]
    simp [parseKeyframes, parseKeyframesRules, List.filterMap_append, List.filterMap_cons, hs]

/-- Claim C8 counterexample: after configure disables caching, a
second configure that only sets the prefix leaves caching disabled,
while the wholesale reading of the claim (the update alone plus
defaults) would re-enable it; the resulting configuration differs
from the wholesale one. -/
theorem configure_not_wholesale_cex :
    c8StB.config.enableCache = false ∧
    (mergeConfig defaultConfig { classNamePfx := some "x" }).enableCache = true ∧
    c8StB.config ≠ mergeConfig defaultConfig { classNamePfx := some "x" } := by
  decide

/-- Claim C8 (amended): configure merges the update field-by-field
into the previously active configuration — an empty update is the
identity (wholesale replacement would reset every option to its
default), and two consecutive configure calls compose into one whose
fields are those of the second update, falling back to the first. -/
theorem configure_merges_into_previous :
    (∀ c : CSSInJSConfig, mergeConfig c emptyUpdate = c) ∧
    (∀ (c : CSSInJSConfig) (p q : ConfigUpdate),
      mergeConfig (mergeConfig c p) q = mergeConfig c (overrideUpdate p q)) := by
  constructor
  · intro c; rfl
  · intro c p q
    simp [mergeConfig, overrideUpdate, orO_getD]

/-- Claim C9: the two distinct descriptions serialize to the same
degenerate JSON (the sorted top-level keys are the replacer at every
nesting level, so nested-only keys are dropped), hence to the same
fingerprint; with caching enabled the second compile is a cache hit
that returns the identifier of the first, performs no new injection,
and never produces rule text for the second description. -/
theorem createCacheKey_nested_collision :
    c9d1 ≠ c9d2 ∧
    stringifyWithSortedKeys c9d1 = "\x7b\"&:hover\":\x7b\x7d\x7d" ∧
    stringifyWithSortedKeys c9d2 = "\x7b\"&:hover\":\x7b\x7d\x7d" ∧
    c9r2.1 = c9r1.1 ∧
    c9r2.2.sinkLog = c9r1.2.sinkLog ∧
    c9r2.2.injectedRules = c9r1.2.injectedRules ∧
    c9r2.2.styleCache.length = c9r1.2.styleCache.length := by
  refine ⟨?_, by decide, by decide, by decide, by decide, by decide, by decide⟩
  intro h
  simp [c9d1, c9d2] at h

/-- Claim C10: a dynamic (function-valued) style definition invoked
with no parameters returns the sentinel css-error and leaves the
manager state untouched: nothing is compiled, injected or cached, and
nothing is thrown (the call returns normally). -/
theorem css_dynamic_no_params (f : JSVal → List (String × JSVal)) (options : Option CSSOptions)
    (sink : String → SinkResult) (st : ManagerState) :
    cssCall (StyleDefinition.funcDef f) options none sink st = ("css-error", st) := rfl
